import Mathlib

/-!
Verification of the ABI-admissions data pipeline (csv_combiner.py,
csv_processor.py, excel_processor.py) against its specification.

Tables read with pandas `header=None` are shallowly embedded as
`List (List String)`: a list of rows, each row a list of cells.  A missing
cell (pandas NaN) is modelled as the empty string `""`, which behaves the
same as NaN under every operation the scripts perform (`pd.notna` guards
combined with `.strip() != ''` checks).  Writing the integer `0` into an
object cell is modelled as the cell `"0"`, its CSV rendering.
-/

namespace ABI

abbrev Row := List String
abbrev Table := List Row

/-- Python `str.strip()`: drop leading and trailing whitespace. -/
def strip (s : String) : String :=
  ⟨((s.data.dropWhile Char.isWhitespace).reverse.dropWhile Char.isWhitespace).reverse⟩

/-- Cell access `df.iloc[i, j]` within one row; out of range gives `""`
(the scripts never read out of range on the inputs we quantify over). -/
def getCell : Row → Nat → String
  | [], _ => ""
  | c :: _, 0 => c
  | _ :: cs, n + 1 => getCell cs n

/-- Cell write `df.iloc[i, j] = v` within one row (no-op out of range). -/
def setCell : Row → Nat → String → Row
  | [], _, _ => []
  | _ :: cs, 0, v => v :: cs
  | c :: cs, n + 1, v => c :: setCell cs n v

theorem length_setCell (row : Row) (i : Nat) (v : String) :
    (setCell row i v).length = row.length := by
  induction row generalizing i with
  | nil => rfl
  | cons c cs ih =>
    cases i with
    | zero => rfl
    | succ i => simp [setCell, ih]

theorem getCell_setCell (row : Row) (i : Nat) (v : String) (j : Nat) :
    getCell (setCell row i v) j =
      if j = i ∧ i < row.length then v else getCell row j := by
  induction row generalizing i j with
  | nil => simp [setCell, getCell]
  | cons c cs ih =>
    cases i with
    | zero =>
      cases j with
      | zero => simp [setCell, getCell]
      | succ j => simp [setCell, getCell]
    | succ i =>
      cases j with
      | zero => simp [setCell, getCell]
      | succ j =>
        simp only [setCell, getCell, ih, List.length_cons]
        by_cases h : j = i ∧ i < cs.length
        · rw [if_pos h, if_pos ⟨by omega, by omega⟩]
        · rw [if_neg h, if_neg (by omega)]

theorem lt_length_of_getCell_ne_default {row : Row} {j : Nat}
    (h : getCell row j ≠ "") : j < row.length := by
  induction row generalizing j with
  | nil => simp [getCell] at h
  | cons c cs ih =>
    cases j with
    | zero => simp
    | succ j =>
      have := ih (j := j) (by simpa [getCell] using h)
      simpa using this

/-! ## csv_combiner.py -/

/-- `combine_csv_files`, per-file region tagging: `df.insert(0, 'Region',
region_name)` is run only when `region_name` is truthy (non-empty). -/
def regionize (r : String) (f : Table) : Table :=
  if r = "" then f else f.map (fun row => r :: row)

/-- First file (`i == 0`) in `combine_csv_files`: region column inserted,
then `df.iloc[0, 0] = 'Region'`.  On a file with no rows that `iloc` write
raises, the exception is caught and the file is skipped: modelled `none`. -/
def processFirstFile (r : String) (f : Table) : Option Table :=
  if r = "" then some f
  else
    match regionize r f with
    | [] => none
    | h :: t => some (setCell h 0 "Region" :: t)

/-- Later file (`i > 0`) in `combine_csv_files`: region column inserted,
then the header row dropped (`df = df.iloc[1:]`). -/
def processLaterFile (r : String) (f : Table) : Table :=
  (regionize r f).drop 1

/-- `combine_csv_files(csv_files, output_file, region_name)`: returns the
combined dataframe (`None` on nothing to combine). -/
def combine_csv_files : List Table → String → Option Table
  | [], _ => none
  | f0 :: rest, r =>
    let dfs := (processFirstFile r f0).toList ++ rest.map (processLaterFile r)
    if dfs.isEmpty then none else some dfs.flatten

/-- C1: For every ordered list of CSV tables (first file nonempty) and a
non-empty region name, `combine_csv_files` produces one table whose row 0 is
file 0's header row with the prepended Region cell set to `"Region"`, whose
remaining rows are exactly the data rows of each input file in file order
then within-file row order (each subsequent file's row 0 dropped), and every
data row's first (Region) cell equals the region name. -/
theorem C1_combine_csv_files_region
    (h0 : Row) (d0 : Table) (rest : List Table) (r : String) (hr : r ≠ "") :
    combine_csv_files ((h0 :: d0) :: rest) r =
      some (("Region" :: h0) ::
        (d0.map (fun row => r :: row) ++
          (rest.map (fun f => (f.map (fun row => r :: row)).drop 1)).flatten))
    ∧ ∀ row ∈ (d0.map (fun row => r :: row) ++
          (rest.map (fun f => (f.map (fun row => r :: row)).drop 1)).flatten),
        row.head? = some r := by
  constructor
  · have hfirst : processFirstFile r (h0 :: d0) =
        some (("Region" :: h0) :: d0.map (fun row => r :: row)) := by
      simp [processFirstFile, regionize, hr, setCell]
    have hlater : rest.map (processLaterFile r) =
        rest.map (fun f => (f.map (fun row => r :: row)).drop 1) := by
      apply List.map_congr_left
      intro f _
      simp [processLaterFile, regionize, hr]
    simp only [combine_csv_files, hfirst, hlater, Option.toList_some,
      List.singleton_append, List.isEmpty_cons, Bool.false_eq_true,
      if_false, List.flatten]
    rfl
  · intro row hrow
    rcases List.mem_append.1 hrow with hmem | hmem
    · obtain ⟨a, _, rfl⟩ := List.mem_map.1 hmem
      rfl
    · obtain ⟨L, hL, hrowL⟩ := List.mem_flatten.1 hmem
      obtain ⟨f, _, rfl⟩ := List.mem_map.1 hL
      have : row ∈ f.map (fun row => r :: row) :=
        List.drop_subset 1 _ hrowL
      obtain ⟨a, _, rfl⟩ := List.mem_map.1 this
      rfl

/-- Witness for C1: two 3-row files (1 header + 2 data rows each) combined
with region "Yorkshire" yield one 5-row table, every data row's Region cell
equal to "Yorkshire". -/
theorem C1_combine_csv_files_region_witness :
    combine_csv_files
        [[["Year", "Org"], ["2014", "A"], ["2015", "B"]],
         [["Year", "Org"], ["2016", "C"], ["2017", "D"]]] "Yorkshire" =
      some [["Region", "Year", "Org"],
            ["Yorkshire", "2014", "A"], ["Yorkshire", "2015", "B"],
            ["Yorkshire", "2016", "C"], ["Yorkshire", "2017", "D"]] :=
  ((C1_combine_csv_files_region ["Year", "Org"]
      [["2014", "A"], ["2015", "B"]]
      [[["Year", "Org"], ["2016", "C"], ["2017", "D"]]]
      "Yorkshire" (by decide)).1).trans (by decide)

/-- `test_header_consistency` loop: for each file read its first row; a file
whose first row cannot be read (modelled: empty table) is recorded
inconsistent via the `except` branch; the first readable header becomes the
reference; afterwards any differing header is recorded inconsistent.
Inconsistent files are tracked by their index in the input list. -/
def tccGo : List Table → Nat → Option Row → List Nat → Option Row × List Nat
  | [], _, ref, inc => (ref, inc)
  | t :: ts, i, ref, inc =>
    match t.head? with
    | none => tccGo ts (i + 1) ref (inc ++ [i])
    | some h =>
      match ref with
      | none => tccGo ts (i + 1) (some h) inc
      | some rh =>
        if h = rh then tccGo ts (i + 1) (some rh) inc
        else tccGo ts (i + 1) (some rh) (inc ++ [i])

/-- `test_header_consistency(csv_files)`: returns
`(is_consistent, reference_header, inconsistent_files)`. -/
def test_header_consistency (files : List Table) : Bool × Option Row × List Nat :=
  match files with
  | [] => (false, none, [])
  | _ =>
    let p := tccGo files 0 none []
    (p.2.isEmpty, p.1, p.2)

/-- `process_all_subfolders` control flow around one subfolder: the header
consistency test is run and its outcome only reported (a warning when
inconsistent); `combine_csv_files` is invoked regardless. -/
def combine_after_header_test (files : List Table) (r : String) : Option Table :=
  let _consistency := test_header_consistency files
  combine_csv_files files r

/-- Indices (from `i`) of files whose first row differs from the reference
header `h0` (an unreadable first row counts as differing). -/
def badIdx : List Table → Nat → Row → List Nat
  | [], _, _ => []
  | t :: ts, i, h0 =>
    if t.head? = some h0 then badIdx ts (i + 1) h0
    else i :: badIdx ts (i + 1) h0

theorem tccGo_ref_some (h0 : Row) :
    ∀ (ts : List Table) (i : Nat) (inc : List Nat),
      tccGo ts i (some h0) inc = (some h0, inc ++ badIdx ts i h0) := by
  intro ts
  induction ts with
  | nil => intro i inc; simp [tccGo, badIdx]
  | cons t ts ih =>
    intro i inc
    cases hh : t.head? with
    | none => simp [tccGo, hh, ih, badIdx]
    | some h =>
      by_cases he : h = h0
      · subst he
        simp [tccGo, hh, ih, badIdx]
      · simp [tccGo, hh, he, ih, badIdx]

theorem badIdx_eq (h0 : Row) :
    ∀ (ts : List Table) (i : Nat),
      badIdx ts i h0 =
        ((List.range ts.length).filter
          (fun k => decide ((ts.getD k []).head? ≠ some h0))).map (· + i) := by
  intro ts
  induction ts with
  | nil => intro i; simp [badIdx]
  | cons t ts ih =>
    intro i
    have hmaps : ∀ l : List Nat,
        ((l.filter (fun k => decide ((ts.getD k []).head? ≠ some h0))).map
            Nat.succ).map (· + i) =
          (l.filter (fun k => decide ((ts.getD k []).head? ≠ some h0))).map
            (· + (i + 1)) := by
      intro l
      rw [List.map_map]
      apply List.map_congr_left
      intro k _
      simp [Function.comp]
      omega
    have hfilt :
        (List.range ts.length).filter
            ((fun k => decide (((t :: ts).getD k []).head? ≠ some h0)) ∘ Nat.succ) =
          (List.range ts.length).filter
            (fun k => decide ((ts.getD k []).head? ≠ some h0)) := by
      apply List.filter_congr
      intro k _
      simp [Function.comp]
    rw [List.length_cons, List.range_succ_eq_map, List.filter_cons]
    by_cases hh : t.head? = some h0
    · simp only [badIdx, if_pos hh]
      rw [ih]
      have h0d : (decide (((t :: ts).getD 0 []).head? ≠ some h0)) = false := by
        simp [hh]
      rw [h0d]
      simp only [Bool.false_eq_true, if_false]
      rw [List.filter_map, hfilt, hmaps]
    · simp only [badIdx, if_neg hh]
      rw [ih]
      have h0d : (decide (((t :: ts).getD 0 []).head? ≠ some h0)) = true := by
        simp [hh]
      rw [h0d]
      simp only [if_true]
      rw [List.map_cons, List.filter_map, hfilt, hmaps]
      simp

/-- C3: header consistency is checked cell-by-cell against the first file's
header (plain row equality records both length and content mismatches); each
differing file is recorded in the inconsistent list; and concatenation is
not aborted: `combine_csv_files` is still invoked and produces a combined
table whose header row is the first file's header. -/
theorem C3_header_mismatch_nonblocking
    (h0 : Row) (d0 : Table) (rest : List Table) :
    (test_header_consistency ((h0 :: d0) :: rest)).2.1 = some h0
    ∧ (test_header_consistency ((h0 :: d0) :: rest)).2.2 =
        ((List.range (rest.length + 1)).filter
          (fun i => decide (0 < i) &&
            decide ((((h0 :: d0) :: rest).getD i []).head? ≠ some h0)))
    ∧ combine_after_header_test ((h0 :: d0) :: rest) "" =
        some ((h0 :: d0) ++ (rest.map (fun f => f.drop 1)).flatten) := by
  have hgo : tccGo ((h0 :: d0) :: rest) 0 none [] =
      (some h0, badIdx rest 1 h0) := by
    simp only [tccGo, List.head?]
    rw [tccGo_ref_some]
    simp
  have hfilter :
      ((List.range (rest.length + 1)).filter
          (fun i => decide (0 < i) &&
            decide ((((h0 :: d0) :: rest).getD i []).head? ≠ some h0))) =
        badIdx rest 1 h0 := by
    rw [badIdx_eq, List.range_succ_eq_map, List.filter_cons]
    have hq0 : (decide (0 < 0) &&
        decide ((((h0 :: d0) :: rest).getD 0 []).head? ≠ some h0)) = false := by
      simp
    rw [hq0]
    simp only [Bool.false_eq_true, if_false]
    rw [List.filter_map]
    have hfilt : (List.range rest.length).filter
        ((fun i => decide (0 < i) &&
          decide ((((h0 :: d0) :: rest).getD i []).head? ≠ some h0)) ∘ Nat.succ) =
        (List.range rest.length).filter
          (fun k => decide ((rest.getD k []).head? ≠ some h0)) := by
      apply List.filter_congr
      intro k _
      simp [Function.comp]
    rw [hfilt]
  refine ⟨?_, ?_, ?_⟩
  · simp only [test_header_consistency, hgo]
  · simp only [test_header_consistency, hgo, hfilter]
  · simp only [combine_after_header_test, combine_csv_files]
    have hfirst : processFirstFile "" (h0 :: d0) = some (h0 :: d0) := by
      simp [processFirstFile]
    have hlater : rest.map (processLaterFile "") =
        rest.map (fun f => f.drop 1) := by
      apply List.map_congr_left
      intro f _
      simp [processLaterFile, regionize]
    simp only [hfirst, hlater, Option.toList_some, List.singleton_append,
      List.isEmpty_cons, Bool.false_eq_true, if_false, List.flatten]
    rfl

/-- Witness for C3: the spec's example, headers `["A","B"]` and `["A","C"]`:
file 1 is flagged inconsistent yet a combined table is produced, headed by
the first file's header. -/
theorem C3_header_mismatch_nonblocking_witness :
    (test_header_consistency [[["A", "B"], ["1", "2"]], [["A", "C"], ["3", "4"]]]).2.2 = [1]
    ∧ combine_after_header_test [[["A", "B"], ["1", "2"]], [["A", "C"], ["3", "4"]]] "" =
        some [["A", "B"], ["1", "2"], ["3", "4"]] := by
  have h := C3_header_mismatch_nonblocking ["A", "B"] [["1", "2"]]
    [[["A", "C"], ["3", "4"]]]
  exact ⟨h.2.1.trans (by decide), h.2.2.trans (by decide)⟩

/-- `get_numeric_csv_files` filter, part 1: glob `*.csv`. -/
def endsWithCsv (f : String) : Bool :=
  decide (4 ≤ f.data.length) &&
    decide (f.data.drop (f.data.length - 4) = ['.', 'c', 's', 'v'])

/-- `Path.stem` of a `*.csv` filename: the name with `.csv` removed. -/
def stemCsv (f : String) : String := ⟨f.data.take (f.data.length - 4)⟩

/-- `re.match(r'^\d', filename)`: the filename starts with a digit. -/
def startsWithDigit (s : String) : Bool :=
  match s.data with
  | [] => false
  | c :: _ => c.isDigit

/-- `get_numeric_csv_files(directory)` on the directory's file listing:
keep CSV files whose stem starts with a digit, in sorted order. -/
def get_numeric_csv_files (files : List String) : List String :=
  List.insertionSort (fun a b => a ≤ b)
    (files.filter (fun f => endsWithCsv f && startsWithDigit (stemCsv f)))

/-- C10: only CSV files whose filename without extension begins with a
decimal digit are selected for region-level concatenation, in
sorted-filename order; every other file (including the extractor's
whole-sheet dump named after the sheet) is excluded. -/
theorem C10_numeric_csv_selection (files : List String) :
    (∀ f, f ∈ get_numeric_csv_files files ↔
      (f ∈ files ∧ endsWithCsv f = true ∧ startsWithDigit (stemCsv f) = true))
    ∧ List.Sorted (fun a b : String => a ≤ b) (get_numeric_csv_files files) := by
  constructor
  · intro f
    rw [get_numeric_csv_files,
      (List.perm_insertionSort (fun a b : String => a ≤ b) _).mem_iff]
    simp [List.mem_filter, Bool.and_eq_true, and_assoc]
  · exact List.sorted_insertionSort _ _

/-- Witness for C10: `1_a.csv` is selected, `sheet.csv` (non-digit stem) is
not, and the selection is sorted. -/
theorem C10_numeric_csv_selection_witness :
    ("1_a.csv" ∈ get_numeric_csv_files ["sheet.csv", "1_a.csv", "02.csv"]
    ∧ "sheet.csv" ∉ get_numeric_csv_files ["sheet.csv", "1_a.csv", "02.csv"])
    ∧ List.Sorted (fun a b : String => a ≤ b)
        (get_numeric_csv_files ["sheet.csv", "1_a.csv", "02.csv"]) := by
  have h := C10_numeric_csv_selection ["sheet.csv", "1_a.csv", "02.csv"]
  refine ⟨⟨(h.1 "1_a.csv").2 (by decide), ?_⟩, h.2⟩
  intro hmem
  exact absurd ((h.1 "sheet.csv").1 hmem) (by decide)

/-! ## csv_processor.py -/

/-- The regex `^(\d{4})-(\d{4})$` applied to the stripped string: exactly
four digits, a hyphen, four digits. -/
def isFullYearRange (t : String) : Bool :=
  match t.data with
  | [a, b, c, d, h, e, f, g, k] =>
    a.isDigit && b.isDigit && c.isDigit && d.isDigit && (h == '-') &&
      e.isDigit && f.isDigit && g.isDigit && k.isDigit
  | _ => false

/-- Python `int()` on a digit string. -/
def digitsToNat (cs : List Char) : Nat :=
  cs.foldl (fun a c => a * 10 + (c.toNat - 48)) 0

/-- Python `s[-2:]`: the last two characters (or the whole string when
shorter). -/
def lastTwo (s : String) : String := ⟨s.data.drop (s.data.length - 2)⟩

/-- `standardize_financial_year(year_string)` (string inputs; the falsy
check `not year_string` is the emptiness test). -/
def standardize_financial_year (s : String) : String :=
  if s = "" then s
  else
    let t := strip s
    if isFullYearRange t then
      let sy := digitsToNat (t.data.take 4)
      let ey := digitsToNat (t.data.drop 5)
      toString sy ++ "-" ++ lastTwo (toString ey)
    else t

/-- Counterexample to C7: the function strips surrounding whitespace, so a
string that is not of the exact form `YYYY-YYYY` is not always returned
unchanged (`" 2014/15 "` comes back as `"2014/15"`); and the first year is
rendered through `int()`, so it is not kept "in full" when it has leading
zeros (`"0014-2015"` gives `"14-15"`, not `"0014-15"`). -/
theorem C7_counterexample :
    (standardize_financial_year " 2014/15 " = "2014/15"
      ∧ " 2014/15 " ≠ "2014/15")
    ∧ (standardize_financial_year "0014-2015" = "14-15"
      ∧ "14-15" ≠ "0014-15") := by
  refine ⟨⟨?_, by decide⟩, ⟨?_, by decide⟩⟩ <;> rfl

/-- C7 (amended): after stripping surrounding whitespace, every string of
the exact form `YYYY-YYYY` maps to the first year rendered as a decimal
number (leading zeros dropped), a hyphen, and the last two characters of
the second year rendered as a decimal number; every other string is
returned stripped of surrounding whitespace (so e.g. `"2014-2015"` maps to
`"2014-15"` and `"2014/15"` is returned unchanged). -/
theorem C7_standardize_financial_year_amended (s : String) :
    (isFullYearRange (strip s) = true →
      standardize_financial_year s =
        toString (digitsToNat ((strip s).data.take 4)) ++ "-" ++
          lastTwo (toString (digitsToNat ((strip s).data.drop 5))))
    ∧ (isFullYearRange (strip s) = false →
      standardize_financial_year s = strip s) := by
  by_cases hs : s = ""
  · subst hs
    refine ⟨fun h => ?_, fun _ => rfl⟩
    exact absurd h (by decide)
  · constructor
    · intro h
      simp [standardize_financial_year, hs, h]
    · intro h
      simp [standardize_financial_year, hs, h]

/-- Witness for C7 (amended): the spec's two examples. -/
theorem C7_standardize_financial_year_amended_witness :
    standardize_financial_year "2014-2015" = "2014-15"
    ∧ standardize_financial_year "2014/15" = "2014/15" := by
  constructor
  · exact ((C7_standardize_financial_year_amended "2014-2015").1
      (by decide)).trans (by decide)
  · exact ((C7_standardize_financial_year_amended "2014/15").2
      (by decide)).trans (by decide)

/-- `process_total_count_rows` header scan for the `'Organisation'` column
(first match wins). -/
def findOrgGo : List String → Nat → Option Nat
  | [], _ => none
  | c :: cs, i =>
    if strip c = "Organisation" then some i else findOrgGo cs (i + 1)

def findOrgIdx (header : Row) : Option Nat := findOrgGo header 0

/-- `process_total_count_rows` single-pass scan for the numeric span: every
`'All_ABI__Female_Count'` match updates the start index, the first
`'Other_disorders_Total_Rate'` match sets the end index and breaks. -/
def findSpanGo : List String → Nat → Option Nat → Option Nat × Option Nat
  | [], _, s => (s, none)
  | c :: cs, i, s =>
    if strip c = "All_ABI__Female_Count" then findSpanGo cs (i + 1) (some i)
    else if strip c = "Other_disorders_Total_Rate" then (s, some i)
    else findSpanGo cs (i + 1) s

/-- Zero the cells at positions `s..e` of a row (`df.iloc[row, col] = 0`
for `col` in `range(start, end + 1)`); `k` is the index of the row's first
cell. -/
def zeroFrom (s e : Nat) : Nat → Row → Row
  | _, [] => []
  | j, c :: cs => (if s ≤ j ∧ j ≤ e then "0" else c) :: zeroFrom s e (j + 1) cs

/-- Body of the `process_total_count_rows` row loop: when the stripped
Organisation cell equals `'Total_Count'`, write `'unknown'` there and zero
the span `s..e`. -/
def processRow (o s e : Nat) (row : Row) : Row :=
  if strip (getCell row o) = "Total_Count" then
    zeroFrom s e 0 (setCell row o "unknown")
  else row

/-- `process_total_count_rows(df)`. -/
def process_total_count_rows (t : Table) : Table :=
  match t with
  | [] => t
  | header :: rows =>
    match findOrgIdx header with
    | none => header :: rows
    | some o =>
      match findSpanGo header 0 none with
      | (some s, some e) => header :: rows.map (processRow o s e)
      | _ => header :: rows

theorem length_zeroFrom (s e : Nat) :
    ∀ (row : Row) (k : Nat), (zeroFrom s e k row).length = row.length := by
  intro row
  induction row with
  | nil => intro k; rfl
  | cons c cs ih => intro k; simp [zeroFrom, ih]

theorem getCell_zeroFrom (s e : Nat) :
    ∀ (row : Row) (k j : Nat),
      getCell (zeroFrom s e k row) j =
        if j < row.length ∧ s ≤ k + j ∧ k + j ≤ e then "0"
        else getCell row j := by
  intro row
  induction row with
  | nil => intro k j; simp [zeroFrom, getCell]
  | cons c cs ih =>
    intro k j
    cases j with
    | zero =>
      simp only [zeroFrom, getCell, List.length_cons]
      by_cases h : s ≤ k ∧ k ≤ e
      · rw [if_pos h, if_pos (by omega)]
      · rw [if_neg h, if_neg (by omega)]
    | succ j =>
      simp only [zeroFrom, getCell, List.length_cons]
      rw [ih (k + 1) j]
      by_cases h : j < cs.length ∧ s ≤ k + 1 + j ∧ k + 1 + j ≤ e
      · rw [if_pos h, if_pos (by omega)]
      · rw [if_neg h, if_neg (by omega)]

/-- C2: on a normalized table whose header row locates the `Organisation`
column at `o` and the numeric span at `s..e` (bounded by
`All_ABI__Female_Count` and `Other_disorders_Total_Rate`, the Organisation
column preceding the span as the normalized layout guarantees),
`process_total_count_rows` rewrites exactly the data rows whose
Organisation cell is `"Total_Count"`: that cell becomes `"unknown"`, every
cell in the span becomes `0`, every cell outside the span and distinct from
the Organisation cell keeps its value; every data row whose (whitespace-free)
Organisation cell differs from `"Total_Count"` is returned unchanged, and
the header row is untouched. -/
theorem C2_process_total_count_rows
    (header : Row) (rows : Table) (o s e : Nat)
    (ho : findOrgIdx header = some o)
    (hs : findSpanGo header 0 none = (some s, some e))
    (hos : o < s) :
    process_total_count_rows (header :: rows) =
      header :: rows.map (processRow o s e)
    ∧ (∀ row ∈ rows, getCell row o = "Total_Count" →
        getCell (processRow o s e row) o = "unknown"
        ∧ (∀ j, s ≤ j → j ≤ e → j < row.length →
            getCell (processRow o s e row) j = "0")
        ∧ (∀ j, j ≠ o → (j < s ∨ e < j) →
            getCell (processRow o s e row) j = getCell row j))
    ∧ (∀ row ∈ rows, strip (getCell row o) = getCell row o →
        getCell row o ≠ "Total_Count" → processRow o s e row = row) := by
  have hTC : strip "Total_Count" = "Total_Count" := by decide
  refine ⟨?_, ?_, ?_⟩
  · simp only [process_total_count_rows, ho, hs]
  · intro row _ hcell
    have hfire : processRow o s e row = zeroFrom s e 0 (setCell row o "unknown") := by
      simp [processRow, hcell, hTC]
    have holt : o < row.length :=
      lt_length_of_getCell_ne_default (by rw [hcell]; decide)
    refine ⟨?_, ?_, ?_⟩
    · rw [hfire, getCell_zeroFrom]
      rw [if_neg (by rw [length_setCell]; omega)]
      rw [getCell_setCell, if_pos ⟨rfl, holt⟩]
    · intro j hsj hje hjlt
      rw [hfire, getCell_zeroFrom]
      rw [if_pos (by rw [length_setCell]; omega)]
    · intro j hjo hout
      rw [hfire, getCell_zeroFrom]
      rw [if_neg (by rw [length_setCell]; omega)]
      rw [getCell_setCell, if_neg (by omega)]
  · intro row _ hstrip hne
    simp [processRow, hstrip, hne]

/-- Witness for C2: a `Total_Count` row with metric columns `[5, 10, 3]`
inside the span becomes `unknown` with metrics `[0, 0, 0]`; a cell outside
the span and a non-`Total_Count` row are unaffected. -/
theorem C2_process_total_count_rows_witness :
    process_total_count_rows
        [["FinancialYear", "Regime", "Organisation", "All_ABI__Female_Count",
          "Mid", "Other_disorders_Total_Rate", "Tail"],
         ["2014-15", "X", "Total_Count", "5", "10", "3", "9"],
         ["2014-15", "X", "Leeds", "7", "8", "9", "9"]] =
      [["FinancialYear", "Regime", "Organisation", "All_ABI__Female_Count",
        "Mid", "Other_disorders_Total_Rate", "Tail"],
       ["2014-15", "X", "unknown", "0", "0", "0", "9"],
       ["2014-15", "X", "Leeds", "7", "8", "9", "9"]] := by
  have h := C2_process_total_count_rows
    ["FinancialYear", "Regime", "Organisation", "All_ABI__Female_Count",
      "Mid", "Other_disorders_Total_Rate", "Tail"]
    [["2014-15", "X", "Total_Count", "5", "10", "3", "9"],
     ["2014-15", "X", "Leeds", "7", "8", "9", "9"]]
    2 3 5 (by decide) (by decide) (by decide)
  exact h.1.trans (by decide)

/-- C9: if the header row has no cell stripping to `"Organisation"`, or
none stripping to either boundary header, `process_total_count_rows`
returns the table unchanged (the warning print is the only effect). -/
theorem C9_skip_when_headers_missing
    (header : Row) (rows : Table)
    (h : (∀ c ∈ header, strip c ≠ "Organisation")
       ∨ (∀ c ∈ header, strip c ≠ "All_ABI__Female_Count")
       ∨ (∀ c ∈ header, strip c ≠ "Other_disorders_Total_Rate")) :
    process_total_count_rows (header :: rows) = header :: rows := by
  have horg : ∀ (l : List String) (i : Nat),
      (∀ c ∈ l, strip c ≠ "Organisation") → findOrgGo l i = none := by
    intro l
    induction l with
    | nil => intro i _; rfl
    | cons c cs ih =>
      intro i hl
      rw [findOrgGo, if_neg (hl c (by simp))]
      exact ih (i + 1) (fun x hx => hl x (by simp [hx]))
  have hfst : ∀ (l : List String) (i : Nat),
      (∀ c ∈ l, strip c ≠ "All_ABI__Female_Count") →
        (findSpanGo l i none).1 = none := by
    intro l
    induction l with
    | nil => intro i _; rfl
    | cons c cs ih =>
      intro i hl
      rw [findSpanGo, if_neg (hl c (by simp))]
      by_cases hc : strip c = "Other_disorders_Total_Rate"
      · rw [if_pos hc]
      · rw [if_neg hc]
        exact ih (i + 1) (fun x hx => hl x (by simp [hx]))
  have hsnd : ∀ (l : List String) (i : Nat) (s0 : Option Nat),
      (∀ c ∈ l, strip c ≠ "Other_disorders_Total_Rate") →
        (findSpanGo l i s0).2 = none := by
    intro l
    induction l with
    | nil => intro i s0 _; rfl
    | cons c cs ih =>
      intro i s0 hl
      rw [findSpanGo]
      by_cases hc : strip c = "All_ABI__Female_Count"
      · rw [if_pos hc]
        exact ih (i + 1) (some i) (fun x hx => hl x (by simp [hx]))
      · rw [if_neg hc, if_neg (hl c (by simp))]
        exact ih (i + 1) s0 (fun x hx => hl x (by simp [hx]))
  rcases h with h | h | h
  · simp [process_total_count_rows, findOrgIdx, horg header 0 h]
  · cases hoi : findOrgIdx header with
    | none => simp [process_total_count_rows, hoi]
    | some o =>
      rcases hp : findSpanGo header 0 none with ⟨sv, ev⟩
      have h1 : sv = none := by
        have hx := hfst header 0 h
        rw [hp] at hx
        exact hx
      subst h1
      simp [process_total_count_rows, hoi, hp]
  · cases hoi : findOrgIdx header with
    | none => simp [process_total_count_rows, hoi]
    | some o =>
      rcases hp : findSpanGo header 0 none with ⟨sv, ev⟩
      have h2 : ev = none := by
        have hx := hsnd header 0 none h
        rw [hp] at hx
        exact hx
      subst h2
      cases sv <;> simp [process_total_count_rows, hoi, hp]

/-- Witness for C9: a table whose header lacks the `Organisation` cell is
returned unchanged, `Total_Count` row and all. -/
theorem C9_skip_when_headers_missing_witness :
    process_total_count_rows [["X", "Y"], ["Total_Count", "5"]] =
      [["X", "Y"], ["Total_Count", "5"]] :=
  C9_skip_when_headers_missing ["X", "Y"] [["Total_Count", "5"]]
    (Or.inl (by decide))

/-- Step 6 of `process_csv_file` on one cell: `original_value.split('_')[0]`
when the cell contains an underscore. -/
def truncateCell (c : String) : String :=
  if c.data.contains '_' then ⟨c.data.takeWhile (fun ch => ch != '_')⟩ else c

/-- Step 6 applied to one row: only columns 0 and 1
(`for col_idx in range(min(2, len(df.columns)))`). -/
def truncateRow : Row → Row
  | [] => []
  | [a] => [truncateCell a]
  | a :: b :: rest => truncateCell a :: truncateCell b :: rest

/-- Step 6 of `process_csv_file` (underscore truncation), applied to every
row of the table. -/
def truncate_first_two_columns (t : Table) : Table := t.map truncateRow

theorem getRow_truncate (t : Table) (i : Nat) :
    (truncate_first_two_columns t).getD i [] = truncateRow (t.getD i []) := by
  induction t generalizing i with
  | nil => cases i <;> rfl
  | cons row rows ih =>
    cases i with
    | zero => rfl
    | succ i => simpa [truncate_first_two_columns] using ih i

/-- C8: the underscore-truncation step changes only columns 0 and 1.  A
cell there containing an underscore is replaced by the part before its
first underscore; a cell there without an underscore, and every cell in
every column `j ≥ 2`, is left unchanged; the number of rows is
preserved. -/
theorem C8_underscore_truncation_frame (t : Table) (i j : Nat) :
    (2 ≤ j →
      getCell ((truncate_first_two_columns t).getD i []) j =
        getCell (t.getD i []) j)
    ∧ (j < 2 → (getCell (t.getD i []) j).data.contains '_' = true →
      getCell ((truncate_first_two_columns t).getD i []) j =
        ⟨(getCell (t.getD i []) j).data.takeWhile (fun ch => ch != '_')⟩)
    ∧ (j < 2 → (getCell (t.getD i []) j).data.contains '_' = false →
      getCell ((truncate_first_two_columns t).getD i []) j =
        getCell (t.getD i []) j)
    ∧ (truncate_first_two_columns t).length = t.length := by
  have hcell : ∀ (row : Row) (j : Nat),
      getCell (truncateRow row) j =
        if j < 2 then truncateCell (getCell row j) else getCell row j := by
    intro row j
    match row, j with
    | [], j =>
      cases j with
      | zero => simp [truncateRow, getCell, truncateCell]
      | succ j =>
        cases j <;> simp [truncateRow, getCell, truncateCell]
    | [a], 0 => simp [truncateRow, getCell]
    | [a], 1 => simp [truncateRow, getCell, truncateCell]
    | [a], (j + 2) => simp [truncateRow, getCell, truncateCell]
    | a :: b :: rest, 0 => simp [truncateRow, getCell]
    | a :: b :: rest, 1 => simp [truncateRow, getCell]
    | a :: b :: rest, (j + 2) =>
      simp [truncateRow, getCell]
  refine ⟨?_, ?_, ?_, ?_⟩
  · intro hj
    rw [getRow_truncate, hcell, if_neg (by omega)]
  · intro hj hc
    rw [getRow_truncate, hcell, if_pos hj, truncateCell, if_pos hc]
  · intro hj hc
    rw [getRow_truncate, hcell, if_pos hj, truncateCell]
    rw [hc]
    simp
  · simp [truncate_first_two_columns]

/-- Witness for C8: `"ABC_DEF"` in column 0 becomes `"ABC"`; the same value
in column 2 is untouched; a column-1 cell without an underscore is
untouched. -/
theorem C8_underscore_truncation_frame_witness :
    getCell ((truncate_first_two_columns [["ABC_DEF", "B", "ABC_DEF"]]).getD 0 []) 0 = "ABC"
    ∧ getCell ((truncate_first_two_columns [["ABC_DEF", "B", "ABC_DEF"]]).getD 0 []) 2 = "ABC_DEF"
    ∧ getCell ((truncate_first_two_columns [["ABC_DEF", "B", "ABC_DEF"]]).getD 0 []) 1 = "B" := by
  refine ⟨?_, ?_, ?_⟩
  · exact ((C8_underscore_truncation_frame [["ABC_DEF", "B", "ABC_DEF"]] 0 0).2.1
      (by decide) (by decide)).trans (by decide)
  · exact ((C8_underscore_truncation_frame [["ABC_DEF", "B", "ABC_DEF"]] 0 2).1
      (by decide)).trans (by decide)
  · exact ((C8_underscore_truncation_frame [["ABC_DEF", "B", "ABC_DEF"]] 0 1).2.2.1
      (by decide) (by decide)).trans (by decide)

/-! ## excel_processor.py -/

/-- The nine category names of `process_abi_data` step 2. -/
def categories : List String :=
  ["All ABI", "Head injuries", "Stroke", "Meningitis", "Brain tumour",
   "Abscess", "Anoxia", "Other_disorders", "CO poisoning"]

/-- The `should_copy` guard of step 2: some of the five cells to the right
(within the row of width `w`) already holds an identical stripped value. -/
def guardBlocks (cell : String) (col : Nat) (cur : Row) (w : Nat) : Bool :=
  ([1, 2, 3, 4, 5] : List Nat).any (fun i =>
    decide (col + i < w) && decide (strip (getCell cur (col + i)) = strip cell))

/-- The copy loop of step 2: write `cell` into the five cells to the right
that exist (`col_idx + i < len(row)`). -/
def writeFive (cell : String) (col : Nat) (cur : Row) (w : Nat) : Row :=
  ([1, 2, 3, 4, 5] : List Nat).foldl
    (fun acc i => if col + i < w then setCell acc (col + i) cell else acc) cur

/-- Step 2 of `process_abi_data` for one cell of the row: `orig` is the
snapshot (`original_df`) the loop iterates over, `cur` the row being
mutated (`processed_df`). -/
def propagateCellStep (orig cur : Row) (col : Nat) : Row :=
  let cell := getCell orig col
  if strip cell ∈ categories then
    if guardBlocks cell col cur orig.length then cur
    else writeFive cell col cur orig.length
  else cur

/-- Step 2 of `process_abi_data` for one row: iterate the columns left to
right over the snapshot of the row, mutating the row in place. -/
def propagateRow (orig : Row) : Row :=
  (List.range orig.length).foldl (fun cur col => propagateCellStep orig cur col) orig

/-- Step 2 of `process_abi_data` (category propagation) on a whole sheet;
rows are mutated independently. -/
def propagate (g : Table) : Table := g.map propagateRow

/-- Counterexample to C4: category propagation is not idempotent.  On a
single-row sheet `["All ABI", "", ..., ""]` the first application writes
`"All ABI"` into columns 1..5; on the second application the copy sitting
in column 5 is itself a category cell whose five right-hand neighbours are
all blank, so it propagates into columns 6..10. -/
theorem C4_counterexample :
    propagate (propagate [["All ABI", "", "", "", "", "", "", "", "", "", ""]]) ≠
      propagate [["All ABI", "", "", "", "", "", "", "", "", "", ""]] := by
  decide

/-- `guardBlocks` holds exactly when some in-range target cell already
carries the category value (up to stripping). -/
theorem guardBlocks_iff (cell : String) (col : Nat) (cur : Row) (w : Nat) :
    guardBlocks cell col cur w = true ↔
      ∃ i ∈ ([1, 2, 3, 4, 5] : List Nat), col + i < w ∧
        strip (getCell cur (col + i)) = strip cell := by
  simp [guardBlocks, List.any_eq_true]

theorem writeFive_vacuous (cell : String) (col : Nat) (cur : Row) (w : Nat)
    (h : w ≤ col + 1) : writeFive cell col cur w = cur := by
  simp only [writeFive, List.foldl_cons, List.foldl_nil]
  rw [if_neg (by omega), if_neg (by omega), if_neg (by omega),
    if_neg (by omega), if_neg (by omega)]

theorem foldl_fixed_of_steps (orig : Row) (l : List Nat)
    (h : ∀ c ∈ l, propagateCellStep orig orig c = orig) :
    l.foldl (fun cur col => propagateCellStep orig cur col) orig = orig := by
  induction l with
  | nil => rfl
  | cons c l ih =>
    rw [List.foldl_cons, h c (by simp)]
    exact ih (fun x hx => h x (by simp [hx]))

/-- A saturated sheet — every category-valued cell either has no cell to
its right or already sees an identical stripped value among its at most
five right-hand neighbours — is left unchanged by the propagation step. -/
theorem propagate_fixed_of_saturated (g : Table)
    (h : ∀ row ∈ g, ∀ col, col < row.length →
      strip (getCell row col) ∈ categories →
      (row.length ≤ col + 1 ∨
        ∃ i ∈ ([1, 2, 3, 4, 5] : List Nat), col + i < row.length ∧
          strip (getCell row (col + i)) = strip (getCell row col))) :
    propagate g = g := by
  have hrow : ∀ row ∈ g, propagateRow row = row := by
    intro row hrow
    apply foldl_fixed_of_steps
    intro c hc
    have hcl : c < row.length := by simpa using List.mem_range.1 hc
    rw [propagateCellStep]
    by_cases hcat : strip (getCell row c) ∈ categories
    · rw [if_pos hcat]
      rcases h row hrow c hcl hcat with hv | hg
      · by_cases hgb : guardBlocks (getCell row c) c row row.length
        · rw [if_pos hgb]
        · rw [if_neg hgb]
          exact writeFive_vacuous _ _ _ _ hv
      · rw [if_pos ((guardBlocks_iff _ _ _ _).2 hg)]
    · rw [if_neg hcat]
  calc propagate g = g.map id := List.map_congr_left hrow
  _ = g := List.map_id g

/-- C4 (amended): the category-propagation step is not idempotent in
general — a propagated copy is itself a category cell on the second pass
and can propagate up to five cells further right — but applying it twice
does yield the same grid as applying it once on every sheet whose
once-propagated result is saturated: each category-valued cell of the
once-propagated sheet either has no cell to its right or already sees an
identical stripped value among its at most five right-hand neighbours. -/
theorem C4_propagation_idempotent_amended (g : Table)
    (h : ∀ row ∈ propagate g, ∀ col, col < row.length →
      strip (getCell row col) ∈ categories →
      (row.length ≤ col + 1 ∨
        ∃ i ∈ ([1, 2, 3, 4, 5] : List Nat), col + i < row.length ∧
          strip (getCell row (col + i)) = strip (getCell row col))) :
    propagate (propagate g) = propagate g :=
  propagate_fixed_of_saturated (propagate g) h

/-- Witness for C4 (amended): on a single-row sheet whose propagation
saturates the row, applying the step twice equals applying it once. -/
theorem C4_propagation_idempotent_amended_witness :
    propagate (propagate [["All ABI", "", "", "", "", ""]]) =
      propagate [["All ABI", "", "", "", "", ""]] :=
  C4_propagation_idempotent_amended [["All ABI", "", "", "", "", ""]]
    (by decide)

/-- Counterexample to C5: the guard is all-or-nothing, not per-target.  In
the row `["All ABI", "", "All ABI", "", "", "", ""]` the cell at column 0
is a category whose target at column 2 already holds an identical value, so
none of the five targets is written: column 1 stays `""` although the claim
says the other target cells still receive the value. -/
theorem C5_counterexample :
    propagateRow ["All ABI", "", "All ABI", "", "", "", ""] =
      ["All ABI", "", "All ABI", "All ABI", "All ABI", "All ABI", "All ABI"]
    ∧ getCell (propagateRow ["All ABI", "", "All ABI", "", "", "", ""]) 1 ≠
        "All ABI" := by
  refine ⟨by decide, by decide⟩

theorem length_writeFold (cell : String) (col w : Nat) :
    ∀ (l : List Nat) (cur : Row),
      (l.foldl (fun acc i => if col + i < w then setCell acc (col + i) cell
        else acc) cur).length = cur.length := by
  intro l
  induction l with
  | nil => intro cur; rfl
  | cons i l ih =>
    intro cur
    rw [List.foldl_cons]
    by_cases hi : col + i < w
    · rw [if_pos hi, ih, length_setCell]
    · rw [if_neg hi, ih]

theorem getCell_writeFold (cell : String) (col w : Nat) :
    ∀ (l : List Nat) (cur : Row) (j : Nat),
      getCell (l.foldl (fun acc i => if col + i < w then setCell acc (col + i) cell
          else acc) cur) j =
        if (∃ i ∈ l, col + i < w ∧ j = col + i ∧ j < cur.length) then cell
        else getCell cur j := by
  intro l
  induction l with
  | nil => intro cur j; simp
  | cons i0 l ih =>
    intro cur j
    rw [List.foldl_cons]
    by_cases hi : col + i0 < w
    · rw [if_pos hi, ih, length_setCell]
      rw [getCell_setCell]
      by_cases hrest : ∃ i ∈ l, col + i < w ∧ j = col + i ∧ j < cur.length
      · rw [if_pos hrest, if_pos (by
          obtain ⟨i, hil, h1, h2, h3⟩ := hrest
          exact ⟨i, by simp [hil], h1, h2, h3⟩)]
      · rw [if_neg hrest]
        by_cases h0 : j = col + i0 ∧ col + i0 < cur.length
        · rw [if_pos h0, if_pos ⟨i0, by simp, hi, h0.1, by omega⟩]
        · rw [if_neg h0, if_neg (by
            rintro ⟨i, hil, h1, h2, h3⟩
            rcases List.mem_cons.1 hil with rfl | hil
            · exact h0 ⟨h2, by omega⟩
            · exact hrest ⟨i, hil, h1, h2, h3⟩)]
    · rw [if_neg hi, ih]
      by_cases hrest : ∃ i ∈ l, col + i < w ∧ j = col + i ∧ j < cur.length
      · rw [if_pos hrest, if_pos (by
          obtain ⟨i, hil, h1, h2, h3⟩ := hrest
          exact ⟨i, by simp [hil], h1, h2, h3⟩)]
      · rw [if_neg hrest, if_neg (by
          rintro ⟨i, hil, h1, h2, h3⟩
          rcases List.mem_cons.1 hil with rfl | hil
          · exact hi h1
          · exact hrest ⟨i, hil, h1, h2, h3⟩)]

/-- C5 (amended): for a cell whose stripped text is one of the nine
categories, the copy is all-or-nothing: if any of the up-to-five cells to
its right already holds an identical stripped value, none of the five is
written and the row is returned unchanged; otherwise the cell's text is
written into every one of the five cells to its right that exists, all
other cells keeping their values. -/
theorem C5_propagation_all_or_nothing_amended
    (orig cur : Row) (col : Nat)
    (hcat : strip (getCell orig col) ∈ categories) :
    ((∃ i ∈ ([1, 2, 3, 4, 5] : List Nat), col + i < orig.length ∧
        strip (getCell cur (col + i)) = strip (getCell orig col)) →
      propagateCellStep orig cur col = cur)
    ∧ (¬ (∃ i ∈ ([1, 2, 3, 4, 5] : List Nat), col + i < orig.length ∧
        strip (getCell cur (col + i)) = strip (getCell orig col)) →
      (∀ i ∈ ([1, 2, 3, 4, 5] : List Nat), col + i < orig.length →
          col + i < cur.length →
          getCell (propagateCellStep orig cur col) (col + i) = getCell orig col)
      ∧ (∀ j, (j ≤ col ∨ col + 5 < j ∨ orig.length ≤ j) →
          getCell (propagateCellStep orig cur col) j = getCell cur j)
      ∧ (propagateCellStep orig cur col).length = cur.length) := by
  constructor
  · intro hex
    rw [propagateCellStep]
    simp only [if_pos hcat]
    rw [if_pos ((guardBlocks_iff _ _ _ _).2 hex)]
  · intro hnex
    have hstep : propagateCellStep orig cur col =
        writeFive (getCell orig col) col cur orig.length := by
      rw [propagateCellStep]
      simp only [if_pos hcat]
      rw [if_neg (by
        intro hgb
        exact hnex ((guardBlocks_iff _ _ _ _).1 hgb))]
    refine ⟨?_, ?_, ?_⟩
    · intro i hil hiw hic
      rw [hstep, writeFive, getCell_writeFold]
      rw [if_pos ⟨i, hil, hiw, rfl, hic⟩]
    · intro j hj
      rw [hstep, writeFive, getCell_writeFold]
      rw [if_neg (by
        rintro ⟨i, hil, h1, h2, h3⟩
        simp only [List.mem_cons, List.not_mem_nil, or_false] at hil
        rcases hil with rfl | rfl | rfl | rfl | rfl <;> omega)]
    · rw [hstep, writeFive, length_writeFold]

/-- Witness for C5 (amended): with no matching target, `"Stroke"` at column
0 is written into the four existing targets; the category cell itself is
untouched. -/
theorem C5_propagation_all_or_nothing_amended_witness :
    getCell (propagateCellStep ["Stroke", "", "", "", ""]
        ["Stroke", "", "", "", ""] 0) 1 = "Stroke"
    ∧ getCell (propagateCellStep ["Stroke", "", "", "", ""]
        ["Stroke", "", "", "", ""] 0) 0 = "Stroke" := by
  have h := (C5_propagation_all_or_nothing_amended
    ["Stroke", "", "", "", ""] ["Stroke", "", "", "", ""] 0
    (by decide)).2 (by decide)
  constructor
  · exact (h.1 1 (by decide) (by decide) (by decide)).trans (by decide)
  · exact (h.2.1 0 (Or.inl (by decide))).trans (by decide)

/-- A row is blank when every cell is NaN or whitespace. -/
def isBlankRow (row : Row) : Bool := row.all (fun c => decide (strip c = ""))

/-- Membership test for the `split_dfs` Python dict, modelled as an
insertion-ordered association list. -/
def hasKey (m : List (String × Table)) (k : String) : Bool :=
  m.any (fun p => decide (p.1 = k))

/-- `split_dfs[k] = v` on a Python dict: overwrite in place when the key
exists, append otherwise. -/
def dinsert (m : List (String × Table)) (k : String) (v : Table) :
    List (String × Table) :=
  if hasKey m k then m.map (fun p => if p.1 = k then (p.1, v) else p)
  else m ++ [(k, v)]

/-- Name given to a new sub-table whose first row is `row` when `k` tables
have been saved so far: the stripped first cell, or `Table_<k+1>` when that
cell is blank. -/
def tableName (row : Row) (k : Nat) : String :=
  if strip (getCell row 0) = "" then "Table_" ++ toString (k + 1)
  else strip (getCell row 0)

/-- The row loop of `split_by_blank_rows`: `dfs` is the dict built so far,
`cur` the current table's rows, `name` the current table's name (set on its
first row). -/
def splitGo : List Row → List (String × Table) → List Row → Option String →
    List (String × Table)
  | [], dfs, cur, name =>
    match name with
    | some n => if cur.isEmpty then dfs else dinsert dfs n cur
    | none => dfs
  | r :: rest, dfs, cur, name =>
    if isBlankRow r then
      splitGo rest
        (match name with
         | some n => if cur.isEmpty then dfs else dinsert dfs n cur
         | none => dfs) [] none
    else
      splitGo rest dfs (cur ++ [r])
        (match name with
         | some n => some n
         | none => some (tableName r dfs.length))

/-- `split_by_blank_rows(df)`: the dict of named sub-tables. -/
def split_by_blank_rows (df : List Row) : List (String × Table) :=
  splitGo df [] [] none

/-- Modelled from the spec: the blank-row-delimited non-blank blocks of a
sheet, for comparison with `split_by_blank_rows`. -/
def blocksGo : List Row → List Row → List Table
  | [], cur => if cur.isEmpty then [] else [cur]
  | r :: rest, cur =>
    if isBlankRow r then
      if cur.isEmpty then blocksGo rest [] else cur :: blocksGo rest []
    else blocksGo rest (cur ++ [r])

/-- Modelled from the spec: the list of blank-row-delimited blocks. -/
def blocks (df : List Row) : List Table := blocksGo df []

/-- The name of each block in order, `k` counting the tables saved before
the first of them. -/
def blockNames : List Table → Nat → List String
  | [], _ => []
  | b :: bs, k => tableName (b.headD []) k :: blockNames bs (k + 1)

/-- Counterexample to C6: sub-tables are stored in a dict keyed by name, so
two blocks with the same first-cell text collapse into one entry: the sheet
`[["A"], [""], ["A"]]` has two blank-delimited blocks but the extractor
emits a single sub-table. -/
theorem C6_counterexample :
    (split_by_blank_rows [["A"], [""], ["A"]]).length ≠
      (blocks [["A"], [""], ["A"]]).length := by
  decide

theorem isEmpty_false_of_ne {α : Type _} {l : List α} (h : l ≠ []) :
    l.isEmpty = false := by
  cases l with
  | nil => exact absurd rfl h
  | cons a t => rfl

theorem hasKey_append_single (m : List (String × Table)) (n : String)
    (v : Table) (k : String) :
    hasKey (m ++ [(n, v)]) k = (hasKey m k || decide (n = k)) := by
  simp [hasKey]

theorem dinsert_fresh (m : List (String × Table)) (n : String) (v : Table)
    (h : hasKey m n = false) : dinsert m n v = m ++ [(n, v)] := by
  simp [dinsert, h]

theorem length_blockNames :
    ∀ (bs : List Table) (k : Nat), (blockNames bs k).length = bs.length := by
  intro bs
  induction bs with
  | nil => intro k; rfl
  | cons b bs ih => intro k; simp [blockNames, ih]

theorem blocksGo_structure :
    ∀ (rest : List Row) (cur : List Row), cur ≠ [] →
      ∃ t bs, blocksGo rest cur = (cur ++ t) :: bs := by
  intro rest
  induction rest with
  | nil =>
    intro cur hcur
    exact ⟨[], [], by simp [blocksGo, isEmpty_false_of_ne hcur]⟩
  | cons r rest ih =>
    intro cur hcur
    by_cases hb : isBlankRow r
    · exact ⟨[], blocksGo rest [],
        by simp [blocksGo, hb, isEmpty_false_of_ne hcur]⟩
    · obtain ⟨t, bs, hstruct⟩ := ih (cur ++ [r]) (by simp)
      exact ⟨[r] ++ t, bs, by simp [blocksGo, hb, hstruct]⟩

/-- `splitGo` invariant at a block boundary (empty current table). -/
def splitMainInv (rows : List Row) : Prop :=
  ∀ dfs : List (String × Table),
    (blockNames (blocksGo rows []) dfs.length).Nodup →
    (∀ m ∈ blockNames (blocksGo rows []) dfs.length, hasKey dfs m = false) →
    splitGo rows dfs [] none =
      dfs ++ List.zip (blockNames (blocksGo rows []) dfs.length) (blocksGo rows [])

/-- `splitGo` invariant inside a block (nonempty current table `cur` named
`n`). -/
def splitMidInv (rows : List Row) : Prop :=
  ∀ (dfs : List (String × Table)) (cur : List Row) (n : String),
    cur ≠ [] →
    (n :: blockNames (blocksGo rows cur).tail (dfs.length + 1)).Nodup →
    (∀ m ∈ n :: blockNames (blocksGo rows cur).tail (dfs.length + 1),
      hasKey dfs m = false) →
    splitGo rows dfs cur (some n) =
      dfs ++ List.zip (n :: blockNames (blocksGo rows cur).tail (dfs.length + 1))
        (blocksGo rows cur)

theorem split_invs : ∀ rows : List Row, splitMainInv rows ∧ splitMidInv rows := by
  intro rows
  induction rows with
  | nil =>
    constructor
    · intro dfs _ _
      simp [splitGo, blocksGo, blockNames]
    · intro dfs cur n hcur hnd hkeys
      have hne : cur.isEmpty = false := isEmpty_false_of_ne hcur
      have hfresh := dinsert_fresh dfs n cur (hkeys n (by simp))
      simp only [splitGo, hne, Bool.false_eq_true, if_false]
      rw [hfresh]
      simp [blocksGo, hne, blockNames]
  | cons r rest ih =>
    obtain ⟨ihMain, ihMid⟩ := ih
    constructor
    · intro dfs hnd hkeys
      by_cases hb : isBlankRow r
      · have hsg : splitGo (r :: rest) dfs [] none =
            splitGo rest dfs [] none := by
          simp [splitGo, hb]
        have hbg : blocksGo (r :: rest) [] = blocksGo rest [] := by
          simp [blocksGo, hb]
        rw [hbg] at hnd hkeys
        rw [hsg, hbg]
        exact ihMain dfs hnd hkeys
      · have hsg : splitGo (r :: rest) dfs [] none =
            splitGo rest dfs [r] (some (tableName r dfs.length)) := by
          simp [splitGo, hb]
        have hbg : blocksGo (r :: rest) [] = blocksGo rest [r] := by
          simp [blocksGo, hb]
        obtain ⟨t, bs, hstruct⟩ := blocksGo_structure rest [r] (by simp)
        have htail : (blocksGo rest [r]).tail = bs := by rw [hstruct]; rfl
        have hnames : blockNames (blocksGo rest [r]) dfs.length =
            tableName r dfs.length :: blockNames bs (dfs.length + 1) := by
          rw [hstruct]
          simp [blockNames]
        rw [hbg] at hnd hkeys
        rw [hnames] at hnd hkeys
        have hmid := ihMid dfs [r] (tableName r dfs.length) (by simp)
          (by rw [htail]; exact hnd) (by rw [htail]; exact hkeys)
        rw [htail] at hmid
        rw [hsg, hbg, hnames]
        exact hmid
    · intro dfs cur n hcur hnd hkeys
      have hne : cur.isEmpty = false := isEmpty_false_of_ne hcur
      by_cases hb : isBlankRow r
      · have hsg : splitGo (r :: rest) dfs cur (some n) =
            splitGo rest (dinsert dfs n cur) [] none := by
          simp [splitGo, hb, hne]
        have hbg : blocksGo (r :: rest) cur = cur :: blocksGo rest [] := by
          simp [blocksGo, hb, hne]
        have hfresh := dinsert_fresh dfs n cur (hkeys n (by simp))
        have hlen : (dfs ++ [(n, cur)]).length = dfs.length + 1 := by simp
        rw [hbg] at hnd hkeys
        simp only [List.tail_cons] at hnd hkeys
        have hnodup2 : (blockNames (blocksGo rest []) (dfs.length + 1)).Nodup :=
          (List.nodup_cons.1 hnd).2
        have hnmem : n ∉ blockNames (blocksGo rest []) (dfs.length + 1) :=
          (List.nodup_cons.1 hnd).1
        have hmain := ihMain (dfs ++ [(n, cur)])
          (by rw [hlen]; exact hnodup2)
          (by
            rw [hlen]
            intro m hm
            rw [hasKey_append_single, hkeys m (by simp [hm]), Bool.false_or]
            simp only [decide_eq_false_iff_not]
            exact fun he => hnmem (he ▸ hm))
        rw [hlen] at hmain
        rw [hsg, hfresh, hmain, hbg]
        simp only [List.tail_cons, List.zip_cons_cons, List.append_assoc,
          List.singleton_append]
      · have hsg : splitGo (r :: rest) dfs cur (some n) =
            splitGo rest dfs (cur ++ [r]) (some n) := by
          simp [splitGo, hb]
        have hbg : blocksGo (r :: rest) cur = blocksGo rest (cur ++ [r]) := by
          simp [blocksGo, hb]
        rw [hbg] at hnd hkeys
        rw [hsg, hbg]
        exact ihMid dfs (cur ++ [r]) n (by simp) hnd hkeys

theorem dinsert_length_le (m : List (String × Table)) (k : String) (v : Table) :
    (dinsert m k v).length ≤ m.length + 1 := by
  rw [dinsert]
  by_cases h : hasKey m k
  · rw [if_pos h, List.length_map]
    omega
  · rw [if_neg h, List.length_append]
    simp

theorem splitGo_length_le :
    ∀ (rows : List Row) (dfs : List (String × Table)) (cur : List Row) (n : String),
      (splitGo rows dfs [] none).length ≤ dfs.length + (blocksGo rows []).length
      ∧ (cur ≠ [] → (splitGo rows dfs cur (some n)).length ≤
          dfs.length + (blocksGo rows cur).length) := by
  intro rows
  induction rows with
  | nil =>
    intro dfs cur n
    constructor
    · simp [splitGo, blocksGo]
    · intro hcur
      have hne := isEmpty_false_of_ne hcur
      simp only [splitGo, blocksGo, hne, Bool.false_eq_true, if_false,
        List.length_singleton]
      exact dinsert_length_le dfs n cur
  | cons r rest ih =>
    intro dfs cur n
    constructor
    · by_cases hb : isBlankRow r
      · have hsg : splitGo (r :: rest) dfs [] none =
            splitGo rest dfs [] none := by
          simp [splitGo, hb]
        have hbg : blocksGo (r :: rest) [] = blocksGo rest [] := by
          simp [blocksGo, hb]
        rw [hsg, hbg]
        exact (ih dfs [] n).1
      · have hsg : splitGo (r :: rest) dfs [] none =
            splitGo rest dfs [r] (some (tableName r dfs.length)) := by
          simp [splitGo, hb]
        have hbg : blocksGo (r :: rest) [] = blocksGo rest [r] := by
          simp [blocksGo, hb]
        rw [hsg, hbg]
        exact (ih dfs [r] (tableName r dfs.length)).2 (by simp)
    · intro hcur
      have hne := isEmpty_false_of_ne hcur
      by_cases hb : isBlankRow r
      · have hsg : splitGo (r :: rest) dfs cur (some n) =
            splitGo rest (dinsert dfs n cur) [] none := by
          simp [splitGo, hb, hne]
        have hbg : blocksGo (r :: rest) cur = cur :: blocksGo rest [] := by
          simp [blocksGo, hb, hne]
        rw [hsg, hbg]
        have h1 := (ih (dinsert dfs n cur) [] n).1
        have h2 := dinsert_length_le dfs n cur
        simp only [List.length_cons]
        omega
      · have hsg : splitGo (r :: rest) dfs cur (some n) =
            splitGo rest dfs (cur ++ [r]) (some n) := by
          simp [splitGo, hb]
        have hbg : blocksGo (r :: rest) cur = blocksGo rest (cur ++ [r]) := by
          simp [blocksGo, hb]
        rw [hsg, hbg]
        exact (ih dfs (cur ++ [r]) n).2 (by simp)

/-- C6 (amended): the extractor partitions the rows into sub-tables at
fully-blank-row boundaries and names block `k` by the trimmed text of its
first row's first cell (or `Table_<k+1>` when that cell is blank), but it
stores sub-tables in a dict keyed by name, a later block overwriting an
earlier one with the same name; hence the number of emitted sub-tables
never exceeds the number of blank-row-delimited non-blank blocks, and can
fall short of it.  When all block names are distinct, the emitted
sub-tables are exactly the blocks paired with their names in order, and
the sub-table count equals the block count. -/
theorem C6_split_by_blank_rows_amended (df : List Row) :
    (split_by_blank_rows df).length ≤ (blocks df).length
    ∧ ((blockNames (blocks df) 0).Nodup →
        split_by_blank_rows df = List.zip (blockNames (blocks df) 0) (blocks df)
        ∧ (split_by_blank_rows df).length = (blocks df).length
        ∧ (split_by_blank_rows df).map Prod.fst = blockNames (blocks df) 0) := by
  constructor
  · have h := (splitGo_length_le df [] [] "").1
    simpa [split_by_blank_rows, blocks] using h
  · intro hnd
    have hmain := (split_invs df).1 [] hnd (by intro m _; rfl)
    have heq : split_by_blank_rows df =
        List.zip (blockNames (blocks df) 0) (blocks df) := hmain
    refine ⟨heq, ?_, ?_⟩
    · rw [heq, List.length_zip, length_blockNames, Nat.min_self]
    · rw [heq]
      exact List.map_fst_zip _ _ (by rw [length_blockNames])

/-- Witness for C6 (amended): a two-block sheet with distinct names yields
the two named blocks, in order, as many sub-tables as blocks. -/
theorem C6_split_by_blank_rows_amended_witness :
    split_by_blank_rows [["A", "1"], [""], ["B", "2"]] =
      [("A", [["A", "1"]]), ("B", [["B", "2"]])]
    ∧ (split_by_blank_rows [["A", "1"], [""], ["B", "2"]]).length =
        (blocks [["A", "1"], [""], ["B", "2"]]).length := by
  have h := (C6_split_by_blank_rows_amended [["A", "1"], [""], ["B", "2"]]).2
    (by decide)
  exact ⟨h.1.trans (by decide), h.2.1⟩

end ABI
